import Mathlib

/-!
Shallow embedding of the layer and recurrent-unit logic of
NetworkBaseLayer.py and NetworkRecurrentLayer.py: parameter loading,
parameter registration, dropout masking, consensus reductions, the
output post-processing pipeline, random-uniform weight initialization,
attribute export (to_json), and the recurrent unit step/scan machinery.
Tensors are modelled as rational-valued functions or lists; the
activation functions supplied by the external tensor substrate
(T.tanh, T.nnet.sigmoid) are taken as function parameters where the
properties proved do not depend on them.
-/

/-- Scalar value stored in a parameter array: a finite rational, or one
of the non-finite floating values that numpy.isnan / numpy.isinf
detect. No arithmetic is performed on loaded values, so this exact
representation of "finite or not" is all the load path observes. -/
inductive FVal where
  | fin (q : ℚ)
  | nan
  | inf
  | ninf
deriving DecidableEq, Repr

/-- Model of `numpy.isinf(x) or numpy.isnan(x)` for one scalar. -/
def FVal.bad : FVal → Bool
  | .fin _ => false
  | _ => true

/-- A stored parameter tensor: its shape and its flattened values. -/
structure PArr where
  shape : List ℕ
  values : List FVal
deriving DecidableEq, Repr

/-- The `self.params` dict of a Container, as an association list. -/
abbrev ParamMap := List (String × PArr)

/-- Association-list lookup, modelling Python dict access `m[n]`. -/
def alookup {α : Type} : List (String × α) → String → Option α
  | [], _ => none
  | (k, v) :: r, n => if k = n then some v else alookup r n

/-- Association-list update of an existing key, modelling `m[n] = w`
for a key already present (value replaced in place). -/
def aset {α : Type} : List (String × α) → String → α → List (String × α)
  | [], _, _ => []
  | (k, v) :: r, n, w => if k = n then (k, w) :: aset r n w else (k, v) :: aset r n w

/-- The two fatal conditions of `Container.load`: the shape assertion
and the NaN/Inf assertion (Python `assert` aborts the load). -/
inductive LoadError where
  | shapeMismatch (p : String)
  | valueCorruption (p : String)
deriving DecidableEq, Repr

/-- The `for p in grp` loop of `Container.load`: each stored parameter
that matches a declared name must pass the shape assertion and the
NaN/Inf assertion before being assigned with `set_value`; a stored
parameter with no matching declared name only logs a warning. -/
def Container.loadLoop : ParamMap → List (String × PArr) → List String →
    Except LoadError (ParamMap × List String)
  | ps, [], ws => .ok (ps, ws)
  | ps, (p, v) :: rest, ws =>
    match alookup ps p with
    | some w =>
      if w.shape = v.shape then
        if v.values.any FVal.bad then .error (.valueCorruption p)
        else Container.loadLoop (aset ps p v) rest ws
      else .error (.shapeMismatch p)
    | none => Container.loadLoop ps rest (ws ++ ["unable to match parameter " ++ p])

/-- `Container.load`: `grp = none` models the failing `head[self.name]`
lookup (warn and return with parameters untouched). Otherwise the first
loop warns once for every declared parameter absent from the source,
and the second loop (`Container.loadLoop`) assigns the stored values.
The class-name comparison of the source, which only ever logs warnings,
is not modelled. -/
def Container.load (ps : ParamMap) (grp : Option (List (String × PArr))) :
    Except LoadError (ParamMap × List String) :=
  match grp with
  | none => .ok (ps, ["unable to load parameters for layer"])
  | some g =>
    let ws := (ps.filter (fun kv => (alookup g kv.1).isNone)).map
      (fun kv => "unable to load parameter " ++ kv.1)
    Container.loadLoop ps g ws

theorem alookup_eq_none_iff {α : Type} (m : List (String × α)) (n : String) :
    alookup m n = none ↔ n ∉ m.map Prod.fst := by
  induction m with
  | nil => simp [alookup]
  | cons kv r ih =>
    obtain ⟨k, v⟩ := kv
    by_cases h : k = n
    · subst h; simp [alookup]
    · rw [List.map_cons]
      simp only [alookup, if_neg h, List.mem_cons, ih]
      constructor
      · intro hr hc
        rcases hc with hc | hc
        · exact h hc.symm
        · exact hr hc
      · intro hh h2
        exact hh (Or.inr h2)

theorem alookup_aset_self {α : Type} (m : List (String × α)) (n : String) (w v : α)
    (h : alookup m n = some w) : alookup (aset m n v) n = some v := by
  induction m with
  | nil => simp [alookup] at h
  | cons kv r ih =>
    obtain ⟨k, u⟩ := kv
    by_cases hk : k = n
    · subst hk; simp [alookup, aset]
    · simp only [alookup, if_neg hk] at h
      simp only [aset, if_neg hk, alookup]
      exact ih h

theorem alookup_aset_ne {α : Type} (m : List (String × α)) (n q : String) (v : α)
    (h : q ≠ n) : alookup (aset m n v) q = alookup m q := by
  induction m with
  | nil => simp [aset]
  | cons kv r ih =>
    obtain ⟨k, u⟩ := kv
    by_cases hk : k = n
    · subst hk
      have hq : ¬ k = q := fun hc => h hc.symm
      simp [aset, alookup, hq, ih]
    · by_cases hq : k = q
      · subst hq
        simp [aset, alookup, h]
      · simp [aset, alookup, hk, hq, ih]

theorem loadLoop_warns_mono (g : List (String × PArr)) :
    ∀ ps ws r, Container.loadLoop ps g ws = .ok r → ∀ w ∈ ws, w ∈ r.2 := by
  induction g with
  | nil =>
    rintro ps ws ⟨r1, r2⟩ h w hw
    simp only [Container.loadLoop, Except.ok.injEq, Prod.mk.injEq] at h
    exact h.2 ▸ hw
  | cons pv rest ih =>
    intro ps ws r h w hw
    obtain ⟨p, v⟩ := pv
    simp only [Container.loadLoop] at h
    cases hl : alookup ps p with
    | some u =>
      simp only [hl] at h
      by_cases hsh : u.shape = v.shape
      · rw [if_pos hsh] at h
        by_cases hbad : v.values.any FVal.bad = true
        · rw [if_pos hbad] at h; cases h
        · rw [if_neg hbad] at h
          exact ih _ _ _ h w hw
      · rw [if_neg hsh] at h; cases h
    | none =>
      simp only [hl] at h
      exact ih _ _ _ h w (by simp [hw])

theorem loadLoop_untouched (g : List (String × PArr)) (n : String)
    (hn : n ∉ g.map Prod.fst) :
    ∀ ps ws r, Container.loadLoop ps g ws = .ok r → alookup r.1 n = alookup ps n := by
  induction g with
  | nil =>
    rintro ps ws ⟨r1, r2⟩ h
    simp only [Container.loadLoop, Except.ok.injEq, Prod.mk.injEq] at h
    rw [← h.1]
  | cons pv rest ih =>
    intro ps ws r h
    obtain ⟨p, v⟩ := pv
    simp only [List.map_cons, List.mem_cons] at hn
    push_neg at hn
    simp only [Container.loadLoop] at h
    cases hl : alookup ps p with
    | some u =>
      simp only [hl] at h
      by_cases hsh : u.shape = v.shape
      · rw [if_pos hsh] at h
        by_cases hbad : v.values.any FVal.bad = true
        · rw [if_pos hbad] at h; cases h
        · rw [if_neg hbad] at h
          rw [ih hn.2 _ _ _ h]
          exact alookup_aset_ne _ _ _ _ hn.1
      · rw [if_neg hsh] at h; cases h
    | none =>
      simp only [hl] at h
      exact ih hn.2 _ _ _ h

theorem loadLoop_ok (g : List (String × PArr)) :
    ∀ ps ws, (g.map Prod.fst).Nodup →
      (∀ p w, (p, w) ∈ g → ∀ u, alookup ps p = some u →
        u.shape = w.shape ∧ w.values.any FVal.bad = false) →
      ∃ r, Container.loadLoop ps g ws = .ok r := by
  induction g with
  | nil => intro ps ws _ _; exact ⟨(ps, ws), rfl⟩
  | cons pv rest ih =>
    intro ps ws hnd hgood
    obtain ⟨p, v⟩ := pv
    simp only [List.map_cons, List.nodup_cons] at hnd
    cases hl : alookup ps p with
    | some u =>
      obtain ⟨hsh, hbad⟩ := hgood p v (by simp) u hl
      have hunf : Container.loadLoop ps ((p, v) :: rest) ws =
          Container.loadLoop (aset ps p v) rest ws := by
        simp only [Container.loadLoop, hl, if_pos hsh]
        rw [if_neg (by simp [hbad])]
      rw [hunf]
      refine ih (aset ps p v) ws hnd.2 ?_
      intro q w hm u2 hu2
      have hq : q ≠ p := by
        intro hc
        subst hc
        exact hnd.1 (List.mem_map.mpr ⟨(q, w), hm, rfl⟩)
      rw [alookup_aset_ne ps p q v hq] at hu2
      exact hgood q w (List.mem_cons_of_mem _ hm) u2 hu2
    | none =>
      have hunf : Container.loadLoop ps ((p, v) :: rest) ws =
          Container.loadLoop ps rest (ws ++ ["unable to match parameter " ++ p]) := by
        simp only [Container.loadLoop, hl]
      rw [hunf]
      refine ih ps _ hnd.2 ?_
      intro q w hm u2 hu2
      exact hgood q w (List.mem_cons_of_mem _ hm) u2 hu2

theorem loadLoop_loaded (g : List (String × PArr)) :
    ∀ ps ws r, (g.map Prod.fst).Nodup →
      Container.loadLoop ps g ws = .ok r →
      ∀ p w, (p, w) ∈ g → alookup ps p ≠ none → alookup r.1 p = some w := by
  induction g with
  | nil => intro ps ws r _ _ p w hm; cases hm
  | cons qv rest ih =>
    intro ps ws r hnd h p w hm hne
    obtain ⟨q, x⟩ := qv
    simp only [List.map_cons, List.nodup_cons] at hnd
    simp only [Container.loadLoop] at h
    cases hql : alookup ps q with
    | some y =>
      simp only [hql] at h
      by_cases hsh : y.shape = x.shape
      · rw [if_pos hsh] at h
        by_cases hxbad : x.values.any FVal.bad = true
        · rw [if_pos hxbad] at h; cases h
        · rw [if_neg hxbad] at h
          rcases List.mem_cons.mp hm with heq | hmr
          · injection heq with hp hw
            subst hp; subst hw
            have hq : p ∉ rest.map Prod.fst := hnd.1
            rw [loadLoop_untouched rest p hq _ _ _ h]
            exact alookup_aset_self ps p y _ hql
          · have hpq : p ≠ q := by
              intro hc
              subst hc
              exact hnd.1 (List.mem_map.mpr ⟨(p, w), hmr, rfl⟩)
            refine ih (aset ps q x) ws r hnd.2 h p w hmr ?_
            rw [alookup_aset_ne ps q p x hpq]
            exact hne
      · rw [if_neg hsh] at h; cases h
    | none =>
      simp only [hql] at h
      rcases List.mem_cons.mp hm with heq | hmr
      · injection heq with hp hw
        subst hp
        exact absurd hql hne
      · exact ih ps _ r hnd.2 h p w hmr hne

theorem load_missing_warning (ps : ParamMap) (g : List (String × PArr)) (n : String) (v : PArr)
    (hn : alookup ps n = some v) (hng : alookup g n = none) :
    ("unable to load parameter " ++ n) ∈
      (ps.filter (fun kv => (alookup g kv.1).isNone)).map
        (fun kv => "unable to load parameter " ++ kv.1) := by
  induction ps with
  | nil => simp [alookup] at hn
  | cons kv r ih =>
    obtain ⟨k, u⟩ := kv
    by_cases hk : k = n
    · subst hk
      rw [List.filter_cons_of_pos (by simp [hng])]
      simp
    · simp only [alookup, if_neg hk] at hn
      by_cases hp : (alookup g k).isNone = true
      · rw [List.filter_cons_of_pos (by simpa using hp)]
        simp only [List.map_cons, List.mem_cons]
        exact Or.inr (ih hn)
      · rw [List.filter_cons_of_neg (by simpa using hp)]
        exact ih hn

/-- Claim C3: a declared parameter name absent from the loading source
only produces a warning; that parameter keeps its pre-load value, every
stored parameter that does match a declared name (with matching shape
and finite values) is assigned, and the load is not aborted. -/
theorem load_missing_param_warns_and_continues
    (ps g : ParamMap) (n : String) (v : PArr)
    (hgnd : (g.map Prod.fst).Nodup)
    (hn : alookup ps n = some v)
    (hng : alookup g n = none)
    (hgood : ∀ p w, (p, w) ∈ g → ∀ u, alookup ps p = some u →
      u.shape = w.shape ∧ w.values.any FVal.bad = false) :
    ∃ ps2 ws, Container.load ps (some g) = .ok (ps2, ws) ∧
      ("unable to load parameter " ++ n) ∈ ws ∧
      alookup ps2 n = some v ∧
      ∀ p w, (p, w) ∈ g → alookup ps p ≠ none → alookup ps2 p = some w := by
  have hload : Container.load ps (some g) =
      Container.loadLoop ps g
        ((ps.filter (fun kv => (alookup g kv.1).isNone)).map
          (fun kv => "unable to load parameter " ++ kv.1)) := rfl
  obtain ⟨⟨ps2, ws⟩, hok⟩ :=
    loadLoop_ok g ps
      ((ps.filter (fun kv => (alookup g kv.1).isNone)).map
        (fun kv => "unable to load parameter " ++ kv.1)) hgnd hgood
  refine ⟨ps2, ws, by rw [hload, hok], ?_, ?_, ?_⟩
  · exact loadLoop_warns_mono g ps _ (ps2, ws) hok _ (load_missing_warning ps g n v hn hng)
  · have hu := loadLoop_untouched g n ((alookup_eq_none_iff g n).mp hng) ps _ (ps2, ws) hok
    rw [hu]
    exact hn
  · intro p w hm hne
    exact loadLoop_loaded g ps _ (ps2, ws) hgnd hok p w hm hne

/-- Witness for C3 at a concrete two-parameter layer and a source
missing the parameter named a. -/
theorem load_missing_param_witness :
    ∃ ps2 ws,
      Container.load
          [("a", PArr.mk [2] [FVal.fin 1, FVal.fin 2]), ("b", PArr.mk [1] [FVal.fin 3])]
          (some [("b", PArr.mk [1] [FVal.fin 4])]) = .ok (ps2, ws) ∧
      ("unable to load parameter " ++ "a") ∈ ws ∧
      alookup ps2 "a" = some (PArr.mk [2] [FVal.fin 1, FVal.fin 2]) ∧
      ∀ p w, (p, w) ∈ [("b", PArr.mk [1] [FVal.fin 4])] →
        alookup [("a", PArr.mk [2] [FVal.fin 1, FVal.fin 2]),
                 ("b", PArr.mk [1] [FVal.fin 3])] p ≠ none →
        alookup ps2 p = some w :=
  load_missing_param_warns_and_continues _ _ "a" _ (by decide) rfl rfl
    (by
      intro p w hm u hu
      rw [List.mem_singleton] at hm
      injection hm with hp hw
      subst hp; subst hw
      have : u = PArr.mk [1] [FVal.fin 3] := by
        rw [show alookup [("a", PArr.mk [2] [FVal.fin 1, FVal.fin 2]),
              ("b", PArr.mk [1] [FVal.fin 3])] "b" = some (PArr.mk [1] [FVal.fin 3]) from rfl]
          at hu
        exact (Option.some.inj hu).symm
      subst this
      exact ⟨rfl, rfl⟩)

theorem loadLoop_error (g : List (String × PArr)) :
    ∀ ps ws p w u, (p, w) ∈ g → alookup ps p = some u →
      (w.values.any FVal.bad = true ∨ w.shape ≠ u.shape) →
      ∃ e, Container.loadLoop ps g ws = .error e := by
  induction g with
  | nil => intro ps ws p w u hm; cases hm
  | cons qv rest ih =>
    intro ps ws p w u hm hl hbadOr
    obtain ⟨q, x⟩ := qv
    cases hql : alookup ps q with
    | none =>
      have hunf : Container.loadLoop ps ((q, x) :: rest) ws =
          Container.loadLoop ps rest (ws ++ ["unable to match parameter " ++ q]) := by
        simp only [Container.loadLoop, hql]
      rw [hunf]
      rcases List.mem_cons.mp hm with heq | hmr
      · injection heq with hp hw
        subst hp
        rw [hql] at hl
        cases hl
      · exact ih ps _ p w u hmr hl hbadOr
    | some y =>
      by_cases hsh : y.shape = x.shape
      · by_cases hxbad : x.values.any FVal.bad = true
        · refine ⟨.valueCorruption q, ?_⟩
          simp only [Container.loadLoop, hql, if_pos hsh, if_pos hxbad]
        · have hunf : Container.loadLoop ps ((q, x) :: rest) ws =
              Container.loadLoop (aset ps q x) rest ws := by
            simp only [Container.loadLoop, hql, if_pos hsh]
            rw [if_neg hxbad]
          rw [hunf]
          rcases List.mem_cons.mp hm with heq | hmr
          · exfalso
            injection heq with hp hw
            subst hp; subst hw
            rw [hql] at hl
            have hu : u = y := (Option.some.inj hl).symm
            rcases hbadOr with hb | hs
            · exact hxbad hb
            · exact hs (by rw [hu, hsh])
          · by_cases hpq : p = q
            · subst hpq
              rw [hql] at hl
              have hu : u = y := (Option.some.inj hl).symm
              refine ih (aset ps p x) ws p w x hmr (alookup_aset_self ps p y x hql) ?_
              rcases hbadOr with hb | hs
              · exact Or.inl hb
              · exact Or.inr (by rw [← hsh, ← hu]; exact hs)
            · refine ih (aset ps q x) ws p w u hmr ?_ hbadOr
              rw [alookup_aset_ne ps q p x hpq]
              exact hl
      · refine ⟨.shapeMismatch q, ?_⟩
        simp only [Container.loadLoop, hql]
        rw [if_neg hsh]

/-- Claim C4: a stored parameter matching a declared name whose values
contain NaN/Inf, or whose shape disagrees with the declared parameter,
makes the load abort with a fatal error instead of assigning it. -/
theorem load_aborts_on_corrupt_or_mismatched (ps g : ParamMap) (p : String) (w u : PArr)
    (hm : (p, w) ∈ g) (hl : alookup ps p = some u)
    (hbad : w.values.any FVal.bad = true ∨ w.shape ≠ u.shape) :
    ∃ e, Container.load ps (some g) = .error e :=
  loadLoop_error g ps _ p w u hm hl hbad

/-- Witness for C4: a source holding a NaN for a declared parameter. -/
theorem load_aborts_witness :
    ∃ e, Container.load [("a", PArr.mk [1] [FVal.fin 0])]
        (some [("a", PArr.mk [1] [FVal.nan])]) = .error e :=
  load_aborts_on_corrupt_or_mismatched _ _ "a" (PArr.mk [1] [FVal.nan])
    (PArr.mk [1] [FVal.fin 0]) (by decide) rfl (Or.inl rfl)

theorem alookup_append_single {α : Type} (m : List (String × α)) (k : String) (v : α)
    (h : alookup m k = none) : alookup (m ++ [(k, v)]) k = some v := by
  induction m with
  | nil => simp [alookup]
  | cons kv r ih =>
    obtain ⟨k2, u⟩ := kv
    by_cases hk : k2 = k
    · subst hk
      simp [alookup] at h
    · simp only [alookup, if_neg hk] at h
      simp only [List.cons_append, alookup, if_neg hk]
      exact ih h

/-- Python dict assignment `self.params[name] = param`: replace the
value if the key already exists, else append a new entry. -/
def dictInsert (m : ParamMap) (k : String) (v : PArr) : ParamMap :=
  if (alookup m k).isSome then aset m k v else m ++ [(k, v)]

theorem alookup_dictInsert_self (m : ParamMap) (k : String) (v : PArr) :
    alookup (dictInsert m k v) k = some v := by
  unfold dictInsert
  by_cases h : (alookup m k).isSome
  · obtain ⟨w, hw⟩ := Option.isSome_iff_exists.mp h
    rw [if_pos h]
    exact alookup_aset_self m k w v hw
  · rw [if_neg h]
    exact alookup_append_single m k v (Option.not_isSome_iff_eq_none.mp h)

/-- The name resolution at the top of `Container.add_param`: use the
given name when non-empty (truthy), else the name attribute of the
parameter when present and non-empty, else `param_N` where N is the
current number of registered parameters. -/
def Container.resolveParamName (ps : ParamMap) (name : String)
    (paramAttrName : Option String) : String :=
  if name ≠ "" then name
  else
    match paramAttrName with
    | some s => if s ≠ "" then s else "param_" ++ Nat.repr ps.length
    | none => "param_" ++ Nat.repr ps.length

/-- `Container.add_param`: `netSub` is the answer of
`self.network.get_layer_param` (the network-level substitution policy)
and `exprSub` the answer of evaluating `substitute_param_expr`; a
`some` answer models a truthy substitute. When a substitution applies,
the substitute is returned and `self.params` is left untouched;
otherwise the parameter is stored under the resolved name and returned
itself. -/
def Container.add_param (ps : ParamMap) (netSub exprSub : Option PArr)
    (param : PArr) (name : String) (paramAttrName : Option String) : PArr × ParamMap :=
  match netSub with
  | some s => (s, ps)
  | none =>
    match exprSub with
    | some s => (s, ps)
    | none => (param, dictInsert ps (Container.resolveParamName ps name paramAttrName) param)

/-- `Container.num_params`: sum over all registered parameters of the
product of the shape entries. -/
def Container.num_params (ps : ParamMap) : ℕ :=
  (ps.map (fun kv => kv.2.shape.prod)).sum

/-- Insertion into a list sorted by parameter name. -/
def insertSortedByName (x : String × PArr) : List (String × PArr) → List (String × PArr)
  | [] => [x]
  | y :: r => if x.1 < y.1 then x :: y :: r else y :: insertSortedByName x r

/-- Sorting by parameter name, modelling `sorted(self.params.items())`. -/
def sortByName : List (String × PArr) → List (String × PArr)
  | [] => []
  | x :: r => insertSortedByName x (sortByName r)

/-- `Container.get_params_vars`: the registered parameters in sorted
name order. -/
def Container.get_params_vars (ps : ParamMap) : List PArr :=
  (sortByName ps).map Prod.snd

/-- Claim C10: when a substitution policy answers, `add_param` returns
the substitute and leaves the parameter map untouched, so the
substituted parameter contributes nothing to `num_params` or
`get_params_vars`; only when no substitution applies is the parameter
stored (under the resolved name) and returned itself. -/
theorem add_param_substitution_frame (ps : ParamMap) (netSub exprSub : Option PArr)
    (param : PArr) (name : String) (pAttr : Option String) :
    (netSub.isSome ∨ exprSub.isSome →
      (Container.add_param ps netSub exprSub param name pAttr).2 = ps ∧
      (Container.add_param ps netSub exprSub param name pAttr).1 =
        netSub.getD (exprSub.getD param) ∧
      Container.num_params (Container.add_param ps netSub exprSub param name pAttr).2 =
        Container.num_params ps ∧
      Container.get_params_vars (Container.add_param ps netSub exprSub param name pAttr).2 =
        Container.get_params_vars ps) ∧
    (netSub = none → exprSub = none →
      Container.add_param ps netSub exprSub param name pAttr =
        (param, dictInsert ps (Container.resolveParamName ps name pAttr) param) ∧
      alookup (Container.add_param ps netSub exprSub param name pAttr).2
        (Container.resolveParamName ps name pAttr) = some param) := by
  constructor
  · intro hsub
    cases netSub with
    | some s => exact ⟨rfl, rfl, rfl, rfl⟩
    | none =>
      cases exprSub with
      | some s => exact ⟨rfl, rfl, rfl, rfl⟩
      | none => simp at hsub
  · intro hnet hexpr
    subst hnet; subst hexpr
    exact ⟨rfl, alookup_dictInsert_self ps _ param⟩

/-- Witness for C10 at concrete parameters: a substituted registration
leaves the map unchanged, an unsubstituted one stores the parameter. -/
theorem add_param_substitution_witness :
    ((Container.add_param [("b", PArr.mk [3] [])]
        (some (PArr.mk [2] [FVal.fin 5])) none (PArr.mk [2] [FVal.fin 7]) "W" none).2 =
          [("b", PArr.mk [3] [])] ∧
      (Container.add_param [("b", PArr.mk [3] [])]
        (some (PArr.mk [2] [FVal.fin 5])) none (PArr.mk [2] [FVal.fin 7]) "W" none).1 =
          (some (PArr.mk [2] [FVal.fin 5])).getD ((none : Option PArr).getD (PArr.mk [2] [FVal.fin 7])) ∧
      Container.num_params (Container.add_param [("b", PArr.mk [3] [])]
        (some (PArr.mk [2] [FVal.fin 5])) none (PArr.mk [2] [FVal.fin 7]) "W" none).2 =
          Container.num_params [("b", PArr.mk [3] [])] ∧
      Container.get_params_vars (Container.add_param [("b", PArr.mk [3] [])]
        (some (PArr.mk [2] [FVal.fin 5])) none (PArr.mk [2] [FVal.fin 7]) "W" none).2 =
          Container.get_params_vars [("b", PArr.mk [3] [])]) ∧
    (Container.add_param [("b", PArr.mk [3] [])] none none (PArr.mk [2] [FVal.fin 7]) "W" none =
        ((PArr.mk [2] [FVal.fin 7]),
          dictInsert [("b", PArr.mk [3] [])]
            (Container.resolveParamName [("b", PArr.mk [3] [])] "W" none) (PArr.mk [2] [FVal.fin 7])) ∧
      alookup (Container.add_param [("b", PArr.mk [3] [])] none none
          (PArr.mk [2] [FVal.fin 7]) "W" none).2
        (Container.resolveParamName [("b", PArr.mk [3] [])] "W" none) =
          some (PArr.mk [2] [FVal.fin 7])) :=
  ⟨(add_param_substitution_frame _ _ _ _ _ _).1 (Or.inl rfl),
   (add_param_substitution_frame _ _ _ _ _ _).2 rfl rfl⟩

/-- One sample of `binomial(n=1, p)` from the MRG random stream, driven
by one uniform draw u in [0,1): the sample is 1 when u < p, else 0. -/
def bernoulliDraw (p u : ℚ) : ℚ := if u < p then 1 else 0

/-- The mask and mass setup in `Layer.__init__`: validate the mask
mode, and on the dropout path check `0 < dropout < 1`, set the mass to
`1/(1-dropout)` and draw one Bernoulli(1-dropout) mask per source
(sized feature dim, or feature dim times depth when depth > 1, each
entry driven by the uniform stream `u`); on the plain path the mass is
1 and every per-source mask is None. A failed assert is `none`. -/
def Layer.setupDropout (mask : String) (dropout : ℚ) (depth : ℕ)
    (srcDims : List ℕ) (u : ℕ → ℕ → ℚ) : Option (ℚ × List (Option (List ℚ))) :=
  if mask = "dropout" ∨ mask = "unity" ∨ mask = "none" then
    if mask = "dropout" ∨ (mask = "none" ∧ 0 < dropout) then
      if 0 < dropout ∧ dropout < 1 then
        some (1 / (1 - dropout),
          (srcDims.enum).map (fun sd =>
            some ((List.range (if 1 < depth then sd.2 * depth else sd.2)).map
              (fun j => bernoulliDraw (1 - dropout) (u sd.1 j)))))
      else none
    else some (1, srcDims.map (fun _ => none))
  else none

/-- Claim C5: for a dropout rate p in (0,1) on the dropout path (mask
"dropout", or mask "none" with dropout > 0), the mass is exactly
`1/(1-p)` and every drawn mask entry is 0 or 1. -/
theorem dropout_mass_and_binary_masks (mask : String) (p : ℚ) (depth : ℕ)
    (dims : List ℕ) (u : ℕ → ℕ → ℚ)
    (hp0 : 0 < p) (hp1 : p < 1)
    (hmode : mask = "dropout" ∨ (mask = "none" ∧ 0 < p)) :
    ∃ ms, Layer.setupDropout mask p depth dims u = some (1 / (1 - p), ms) ∧
      ∀ o ∈ ms, ∀ l, o = some l → ∀ x ∈ l, x = 0 ∨ x = 1 := by
  have hvalid : mask = "dropout" ∨ mask = "unity" ∨ mask = "none" := by
    rcases hmode with h | ⟨h, _⟩
    · exact Or.inl h
    · exact Or.inr (Or.inr h)
  refine ⟨(dims.enum).map (fun sd =>
      some ((List.range (if 1 < depth then sd.2 * depth else sd.2)).map
        (fun j => bernoulliDraw (1 - p) (u sd.1 j)))), ?_, ?_⟩
  · simp only [Layer.setupDropout, if_pos hvalid, if_pos hmode,
      if_pos (show 0 < p ∧ p < 1 from ⟨hp0, hp1⟩)]
  · intro o ho l hl x hx
    simp only [List.mem_map] at ho
    obtain ⟨sd, hsd, rfl⟩ := ho
    obtain rfl := Option.some.inj hl
    simp only [List.mem_map] at hx
    obtain ⟨j, hj, rfl⟩ := hx
    unfold bernoulliDraw
    split_ifs
    · right; rfl
    · left; rfl

/-- Witness for C5 at mask "dropout", p = 1/2, one source of width 2. -/
theorem dropout_mass_witness :
    ∃ ms, Layer.setupDropout "dropout" (1/2) 1 [2] (fun _ _ => 0) =
        some (1 / (1 - 1/2), ms) ∧
      ∀ o ∈ ms, ∀ l, o = some l → ∀ x ∈ l, x = 0 ∨ x = 1 :=
  dropout_mass_and_binary_masks "dropout" (1/2) 1 [2] (fun _ _ => 0)
    (by norm_num) (by norm_num) (Or.inl rfl)

/-- `Layer.make_consensus`, restricted to the elementwise reductions
along the depth axis: `x j` is the fiber along the reduced axis at
multi-index `j` over the remaining axes, `d` the depth. The branches
that change the tensor shape or draw randomness (the flat reshape, the
learned projection, the random slice) and the unknown-name fatal
assert are outside this deterministic elementwise model and map to
`none`; the branch order follows the source. -/
def Layer.make_consensus (ι : Type) (d : ℕ) (cns : String) (x : ι → Fin d → ℚ) :
    Option (ι → ℚ) :=
  if cns = "max" then
    if hd : 0 < d then
      some (fun j => Finset.univ.sup' ⟨⟨0, hd⟩, Finset.mem_univ _⟩ (x j))
    else none
  else if cns = "min" then
    if hd : 0 < d then
      some (fun j => Finset.univ.inf' ⟨⟨0, hd⟩, Finset.mem_univ _⟩ (x j))
    else none
  else if cns = "mean" then
    some (fun j => (∑ i, x j i) / d)
  else if cns = "flat" then
    none
  else if cns = "sum" then
    some (fun j => ∑ i, x j i)
  else if cns = "prod" then
    some (fun j => ∏ i, x j i)
  else if cns = "var" then
    some (fun j => (∑ i, (x j i - (∑ i2, x j i2) / d) ^ 2) / d)
  else if cns = "project" then
    none
  else if cns = "random" then
    none
  else none

/-- Claim C8: the sum consensus equals the mean consensus multiplied
elementwise by the depth, exactly over exact arithmetic. -/
theorem make_consensus_sum_eq_mean_mul_depth (ι : Type) (d : ℕ) (x : ι → Fin d → ℚ)
    (hd : 1 < d) :
    ∃ s m, Layer.make_consensus ι d "sum" x = some s ∧
      Layer.make_consensus ι d "mean" x = some m ∧
      ∀ j, s j = m j * d := by
  refine ⟨fun j => ∑ i, x j i, fun j => (∑ i, x j i) / d, ?_, ?_, ?_⟩
  · simp [Layer.make_consensus]
  · simp [Layer.make_consensus]
  · intro j
    rw [div_mul_cancel₀]
    exact Nat.cast_ne_zero.mpr (by omega)

/-- Witness for C8 at depth 2 with a concrete fiber. -/
theorem make_consensus_sum_mean_witness :
    ∃ s m, Layer.make_consensus (Fin 1) 2 "sum" (fun _ i => (i : ℚ)) = some s ∧
      Layer.make_consensus (Fin 1) 2 "mean" (fun _ i => (i : ℚ)) = some m ∧
      ∀ j, s j = m j * 2 := by
  have h := make_consensus_sum_eq_mean_mul_depth (Fin 1) 2 (fun _ i => (i : ℚ)) (by norm_num)
  simpa using h

/-- Elementwise sum of two vectors. -/
def vadd (a b : List ℚ) : List ℚ := List.zipWith (fun x y => x + y) a b

/-- Scalar times vector. -/
def vscale (c : ℚ) (a : List ℚ) : List ℚ := a.map (fun x => c * x)

/-- `T.argmax` along the last axis: index of the first maximal entry. -/
def argmaxIdx (l : List ℚ) : ℕ :=
  (l.enum.foldl (fun best cur => if best.2 < cur.2 then cur else best) (0, l.headD 0)).1

/-- Configuration read by `Layer.make_output` from `self.attrs` and
`self.depth`. -/
structure OutCfg where
  depth : ℕ
  batch_norm : Bool
  residual : Bool
  layer_drop : ℚ
  sparse : Bool
  sparse_filtering : Bool
deriving DecidableEq, Repr

/-- The stages of `Layer.make_output` before the layer-drop blend:
consensus collapse when depth > 1 (`consensusFn` stands for
`self.make_consensus`, which acts on the full depth-shaped tensor),
then batch normalization (`bnFn` stands for `self.batch_norm`, whose
standard-deviation division lives in the real-valued substrate), then
the residual add of the concatenated sources (`z_resid` is produced by
`concat_sources` in NetworkHiddenLayer, outside this repository
slice). -/
def Layer.make_output_pre (cfg : OutCfg) (consensusFn bnFn : List ℚ → List ℚ)
    (z_resid : List ℚ) (output : List ℚ) : List ℚ :=
  let o1 := if 1 < cfg.depth then consensusFn output else output
  let o2 := if cfg.batch_norm then bnFn o1 else o1
  if cfg.residual then vadd o2 z_resid else o2

/-- `Layer.make_output`: the fixed pipeline consensus-collapse, batch
norm, residual add, layer drop (training: Bernoulli choice `dropBern`
between the projected source `z_drop` and the computed output;
inference: the fixed convex blend), sparse argmax collapse, sparse
filtering (`sfFn` stands for the two-stage L2 normalization, whose
square roots live in the real-valued substrate). `z_drop` is the
concatenated source, already projected through W_drop when the widths
differ. -/
def Layer.make_output (cfg : OutCfg) (train_flag dropBern : Bool)
    (consensusFn bnFn sfFn : List ℚ → List ℚ)
    (z_resid z_drop output : List ℚ) : List ℚ :=
  let o3 := Layer.make_output_pre cfg consensusFn bnFn z_resid output
  let o4 := if 0 < cfg.layer_drop then
      (if train_flag then (if dropBern then z_drop else o3)
       else vadd (vscale cfg.layer_drop z_drop) (vscale (1 - cfg.layer_drop) o3))
    else o3
  let o5 := if cfg.sparse then [((argmaxIdx o4 : ℕ) : ℚ)] else o4
  if cfg.sparse_filtering then sfFn o5 else o5

/-- Counterexample for C6 as stated: a sparse layer with layer-drop 0.3
at inference time post-processes the blend with argmax, so its final
output is not the convex blend. -/
theorem make_output_layer_drop_sparse_counterexample :
    Layer.make_output (OutCfg.mk 1 false false (3/10) true false) false false
        id id id [] [10, 0] [0, 10] ≠
      vadd (vscale (3/10) [10, 0]) (vscale (1 - 3/10) [0, 10]) := by
  norm_num [Layer.make_output, Layer.make_output_pre, vadd, vscale, argmaxIdx,
    List.enum, List.enumFrom]

/-- Claim C6 (amended): for a layer with layer_drop = d > 0 evaluated
with the training flag off, and not configured with the sparse argmax
collapse or sparse filtering (which post-process the blend), the final
output is exactly d * z + (1-d) * computed output, where z is the
(possibly projected) concatenated source and the computed output is
the result of the pipeline stages before the blend. -/
theorem make_output_layer_drop_inference (cfg : OutCfg) (dropBern : Bool)
    (cFn bFn sFn : List ℚ → List ℚ) (z_resid z_drop output : List ℚ)
    (hld : 0 < cfg.layer_drop) (hsp : cfg.sparse = false)
    (hsf : cfg.sparse_filtering = false) :
    Layer.make_output cfg false dropBern cFn bFn sFn z_resid z_drop output =
      vadd (vscale cfg.layer_drop z_drop)
        (vscale (1 - cfg.layer_drop) (Layer.make_output_pre cfg cFn bFn z_resid output)) := by
  simp [Layer.make_output, hld, hsp, hsf]

/-- Witness for C6 at d = 0.3 with literal arrays: the inference output
is 0.3 * z + 0.7 * computed output. -/
theorem make_output_layer_drop_witness :
    Layer.make_output (OutCfg.mk 1 false false (3/10) false false) false false
        id id id [] [10, 0] [0, 10] =
      vadd (vscale (3/10) [10, 0])
        (vscale (1 - 3/10)
          (Layer.make_output_pre (OutCfg.mk 1 false false (3/10) false false) id id [] [0, 10])) :=
  make_output_layer_drop_inference (OutCfg.mk 1 false false (3/10) false false) false
    id id id [] [10, 0] [0, 10] (by norm_num) rfl rfl

/-- Python truthiness of an optional numeric keyword argument: None
and 0 are falsy. -/
def truthyQ (x : Option ℚ) : Bool :=
  match x with
  | none => false
  | some q => if q = 0 then false else true

/-- `Container.create_random_uniform_weights`: `p?`, `p_add?`, `l?`
mirror the keyword arguments (None when absent); the assert rejects a
truthy p together with a truthy l; p defaults to `n + m` (and p_add is
added when truthy), the bound l defaults to `sqrt(6)/sqrt(p)`. The
result is the shape of the created tensor together with its entries,
each entry driven by one uniform draw `u i` in [0,1) through
`low + u * (high - low)` with low = -l and high = l, which is how the
substrate realizes `rng.uniform(low=-l, high=l)`. -/
noncomputable def Container.create_random_uniform_weights (depth n m : ℕ)
    (p? p_add? l? : Option ℚ) (u : ℕ → ℝ) : Option (List ℕ × (ℕ → ℝ)) :=
  if truthyQ p? ∧ truthyQ l? then none
  else
    let p0 : ℚ := if truthyQ p? then p?.getD 0 else (n + m : ℚ)
    let p : ℚ := if truthyQ p_add? then p0 + p_add?.getD 0 else p0
    let l : ℝ := if truthyQ l? then ((l?.getD 0 : ℚ) : ℝ) else Real.sqrt 6 / Real.sqrt (p : ℝ)
    some (if 1 < depth then [n, depth, m] else [n, m],
      fun i => -l + u i * (l - -l))

/-- Claim C7: with neither a limit nor a probability argument, the
bound is sqrt(6/(n+m)), every sampled entry lies in [-l, l], and the
shape is (n, m), or (n, depth, m) when depth > 1. -/
theorem random_uniform_default_bound (depth n m : ℕ) (u : ℕ → ℝ)
    (hu : ∀ i, 0 ≤ u i ∧ u i < 1) :
    ∃ e, Container.create_random_uniform_weights depth n m none none none u =
        some ((if 1 < depth then [n, depth, m] else [n, m]), e) ∧
      (∀ i, e i = -(Real.sqrt (6 / (n + m : ℝ))) +
        u i * (Real.sqrt (6 / (n + m : ℝ)) - -(Real.sqrt (6 / (n + m : ℝ))))) ∧
      (∀ i, -(Real.sqrt (6 / (n + m : ℝ))) ≤ e i ∧ e i ≤ Real.sqrt (6 / (n + m : ℝ))) := by
  have hL : Real.sqrt (6 / (n + m : ℝ)) = Real.sqrt 6 / Real.sqrt (((n + m : ℕ) : ℚ) : ℝ) := by
    rw [Real.sqrt_div (by norm_num : (0:ℝ) ≤ 6)]
    congr 2
    push_cast
    ring
  have hL0 : 0 ≤ Real.sqrt (6 / (n + m : ℝ)) := Real.sqrt_nonneg _
  refine ⟨fun i => -(Real.sqrt (6 / (n + m : ℝ))) +
      u i * (Real.sqrt (6 / (n + m : ℝ)) - -(Real.sqrt (6 / (n + m : ℝ)))), ?_, ?_, ?_⟩
  · simp only [Container.create_random_uniform_weights, truthyQ]
    rw [hL]
    norm_num
  · intro i
    rfl
  · intro i
    constructor
    · nlinarith [hL0, (hu i).1, (hu i).2]
    · nlinarith [hL0, (hu i).1, (hu i).2]

/-- Witness for C7 at n = 2, m = 3, depth 1, all draws at 1/2. -/
theorem random_uniform_default_witness :
    ∃ e, Container.create_random_uniform_weights 1 2 3 none none none (fun _ => (1/2 : ℝ)) =
        some ([2, 3], e) ∧
      ∀ i, -(Real.sqrt (6/5)) ≤ e i ∧ e i ≤ Real.sqrt (6/5) := by
  obtain ⟨e, h1, _, h3⟩ := random_uniform_default_bound 1 2 3 (fun _ => (1/2 : ℝ))
    (fun _ => ⟨by norm_num, by norm_num⟩)
  refine ⟨e, ?_, ?_⟩
  · simpa using h1
  · intro i
    have h5 : ((2 : ℕ) + (3 : ℕ) : ℝ) = 5 := by norm_num
    have := h3 i
    rw [h5] at this
    exact this

/-- The all-ones vector `self.o_output` of LSTME. -/
def LSTME.o_output : ℕ → ℚ := fun _ => 1

/-- The all-ones vector `self.o_h` of LSTME. -/
def LSTME.o_h : ℕ → ℚ := fun _ => 1

/-- `LSTME.step` without an attached recurrent transform, over
rational-valued tensors indexed as (batch row, feature); `sigm` and
`th` stand for the substrate activations T.nnet.sigmoid and T.tanh.
The recurrent contribution `dot(y_p, W_re)` is added to the mapped
input z_t (the sum runs over the n output features); the
pre-activation of width 4n is sliced at partition = 4n/4 = n into
input gate, forget gate, output gate and net input; the new cell state
blends the old one through the forget gate; the outer products of the
index vector i_t with the ones vectors o_output and o_h gate the two
returned states. -/
def LSTME.step (sigm th : ℚ → ℚ) (n : ℕ) (W_re : ℕ → ℕ → ℚ)
    (i_t : ℕ → ℚ) (z_t y_p c_p : ℕ → ℕ → ℚ) :
    (ℕ → ℕ → ℚ) × (ℕ → ℕ → ℚ) :=
  let z : ℕ → ℕ → ℚ := fun b k => z_t b k + ∑ j ∈ Finset.range n, y_p b j * W_re j k
  let ingate : ℕ → ℕ → ℚ := fun b j => sigm (z b j)
  let forgetgate : ℕ → ℕ → ℚ := fun b j => sigm (z b (n + j))
  let outgate : ℕ → ℕ → ℚ := fun b j => sigm (z b (2 * n + j))
  let inp : ℕ → ℕ → ℚ := fun b j => th (z b (3 * n + j))
  let c_t : ℕ → ℕ → ℚ := fun b j => forgetgate b j * c_p b j + ingate b j * inp b j
  let y_t : ℕ → ℕ → ℚ := fun b j => outgate b j * th (c_t b j)
  (fun b j => y_t b j * (i_t b * LSTME.o_output j),
   fun b j => c_t b j * (i_t b * LSTME.o_h j) + c_p b j * (1 - i_t b * LSTME.o_h j))

/-- Counterexample for C1 as stated: at a batch row whose index flag is
0, the returned output state is 0, not the incoming output state (here
1): the convex blend holds only for the cell state, while the output
state is multiplied by the index indicator. -/
theorem lstme_step_masked_counterexample :
    (LSTME.step id id 1 (fun _ _ => 0) (fun _ => 0) (fun _ _ => 0)
        (fun _ _ => 1) (fun _ _ => 0)).1 0 0 ≠ (fun _ _ => (1 : ℚ)) 0 0 := by
  norm_num [LSTME.step, LSTME.o_output]

/-- Claim C1 (amended): for a batch row whose index flag is 0, one
LSTME step leaves the cell state of that row unchanged (convex blend
with the index indicator) and sets the output state of that row to 0
(multiplication by the index indicator), for any activations, weights
and inputs. -/
theorem lstme_step_masked_row (sigm th : ℚ → ℚ) (n : ℕ) (W_re : ℕ → ℕ → ℚ)
    (i_t : ℕ → ℚ) (z_t y_p c_p : ℕ → ℕ → ℚ) (b : ℕ) (hb : i_t b = 0) :
    (∀ j, (LSTME.step sigm th n W_re i_t z_t y_p c_p).2 b j = c_p b j) ∧
    (∀ j, (LSTME.step sigm th n W_re i_t z_t y_p c_p).1 b j = 0) := by
  constructor <;> intro j <;> simp [LSTME.step, LSTME.o_output, LSTME.o_h, hb]

/-- Witness for C1 (amended) at a concrete masked row. -/
theorem lstme_step_masked_witness :
    (∀ j, (LSTME.step id id 1 (fun _ _ => 0) (fun _ => 0) (fun _ _ => 0)
        (fun _ _ => 1) (fun _ _ => 2)).2 0 j = (fun _ _ => (2 : ℚ)) 0 j) ∧
    (∀ j, (LSTME.step id id 1 (fun _ _ => 0) (fun _ => 0) (fun _ _ => 0)
        (fun _ _ => 1) (fun _ _ => 2)).1 0 j = 0) :=
  lstme_step_masked_row id id 1 (fun _ _ => 0) (fun _ => 0) (fun _ _ => 0)
    (fun _ _ => 1) (fun _ _ => 2) 0 rfl

/-- A Python callable: its declared positional parameter count (after
self) and its body on an argument list. -/
structure PyFun (V : Type) where
  arity : ℕ
  body : List V → V

/-- Python function application: a call with the wrong number of
positional arguments raises a TypeError, modelled as `none`. -/
def pyApply {V : Type} (f : PyFun V) (args : List V) : Option V :=
  if args.length = f.arity then some (f.body args) else none

/-- The loop of `theano.scan` for a step with one carried output and no
non-sequences: at each time t the step function is called on one slice
of every sequence followed by the carried output, in that order; the
carried output starts from outputs_info. -/
def theanoScan1 {V : Type} (st : PyFun V) (seqs : List (ℕ → V)) :
    ℕ → V → ℕ → Option (List V)
  | _, _, 0 => some []
  | t, h, k + 1 =>
    match pyApply st (seqs.map (fun s => s t) ++ [h]) with
    | none => none
    | some y =>
      match theanoScan1 st seqs (t + 1) y k with
      | none => none
      | some r => some (y :: r)

/-- `Unit.scan` for a unit with one carried output (n_act = 1): the
sequences handed to theano.scan are `[i, xc, z]`; when the unit has no
raw sources, xc is z itself. -/
def Unit.scan1 {V : Type} (st : PyFun V) (i xc z : ℕ → V) (h0 : V) (T : ℕ) :
    Option (List V) :=
  theanoScan1 st [i, xc, z] 0 h0 T

/-- `VANILLA.step`: declares the five positional parameters i_t, x_t,
z_t, z_p, h_p (after self) and returns tanh(z_t + z_p). -/
def VANILLA.step (tanhV : ℚ → ℚ) : PyFun ℚ :=
  ⟨5, fun args =>
    match args with
    | [_, _, z_t, z_p, _] => tanhV (z_t + z_p)
    | _ => 0⟩

/-- Claim C2, evaluating the code path: theano.scan hands VANILLA.step
three sequence slices plus one carried state, four arguments in all,
but the step declares five parameters, so scanning a VANILLA unit over
any non-empty time axis fails with a TypeError instead of producing
the sequential tanh recurrence. -/
theorem vanilla_scan_arity_error (tanhV : ℚ → ℚ) (i z : ℕ → ℚ) (h0 : ℚ) (T : ℕ) :
    Unit.scan1 (VANILLA.step tanhV) i z z h0 (T + 1) = none := by
  simp [Unit.scan1, theanoScan1, pyApply, VANILLA.step]

theorem takeWhile_append_all {α : Type} (p : α → Bool) (l1 l2 : List α)
    (h : ∀ x ∈ l1, p x = true) : (l1 ++ l2).takeWhile p = l1 ++ l2.takeWhile p := by
  induction l1 with
  | nil => simp
  | cons a r ih =>
    simp [List.cons_append, List.takeWhile_cons, h a (List.mem_cons_self _ _),
      ih (fun x hx => h x (List.mem_cons_of_mem _ hx))]

theorem dropWhile_append_all {α : Type} (p : α → Bool) (l1 l2 : List α)
    (h : ∀ x ∈ l1, p x = true) : (l1 ++ l2).dropWhile p = l2.dropWhile p := by
  induction l1 with
  | nil => simp
  | cons a r ih =>
    simp [List.cons_append, List.dropWhile_cons, h a (List.mem_cons_self _ _),
      ih (fun x hx => h x (List.mem_cons_of_mem _ hx))]

theorem takeWhile_all_false {α : Type} (p : α → Bool) (l : List α)
    (h : ∀ x ∈ l, p x = false) : l.takeWhile p = [] := by
  cases l with
  | nil => rfl
  | cons a r => simp [List.takeWhile_cons, h a (List.mem_cons_self _ _)]

theorem dropWhile_all_false {α : Type} (p : α → Bool) (l : List α)
    (h : ∀ x ∈ l, p x = false) : l.dropWhile p = l := by
  cases l with
  | nil => rfl
  | cons a r => simp [List.dropWhile_cons, h a (List.mem_cons_self _ _)]

theorem takeWhile_head_false {α : Type} (p : α → Bool) (l1 l2 : List α)
    (hne : l1 ≠ []) (h : ∀ x ∈ l1, p x = false) : (l1 ++ l2).takeWhile p = [] := by
  cases l1 with
  | nil => exact absurd rfl hne
  | cons a r => simp [List.takeWhile_cons, h a (List.mem_cons_self _ _)]

theorem dropWhile_head_false {α : Type} (p : α → Bool) (l1 l2 : List α)
    (hne : l1 ≠ []) (h : ∀ x ∈ l1, p x = false) : (l1 ++ l2).dropWhile p = l1 ++ l2 := by
  cases l1 with
  | nil => exact absurd rfl hne
  | cons a r => simp [List.dropWhile_cons, h a (List.mem_cons_self _ _)]

/-- The decimal digit characters (the output alphabet of %i). -/
def digitChar (d : ℕ) : Char :=
  if d = 0 then '0' else if d = 1 then '1' else if d = 2 then '2'
  else if d = 3 then '3' else if d = 4 then '4' else if d = 5 then '5'
  else if d = 6 then '6' else if d = 7 then '7' else if d = 8 then '8' else '9'

/-- Little-endian decimal digits of k, with explicit fuel so every
concrete value reduces in the kernel; fuel at least k makes it exact. -/
def digitsAux : ℕ → ℕ → List ℕ
  | _, 0 => []
  | 0, _ + 1 => []
  | fuel + 1, k + 1 => ((k + 1) % 10) :: digitsAux fuel ((k + 1) / 10)

/-- Little-endian decimal digits of k. -/
def natDigitsRev (k : ℕ) : List ℕ := digitsAux k k

/-- Python `"%i" % k`: decimal digits most significant first, without
leading zeros, and "0" for zero. -/
def natRepr (k : ℕ) : List Char :=
  if k = 0 then ['0'] else (natDigitsRev k).reverse.map digitChar

/-- Python `int(s)` on the decimal digit string captured by the regex
group of `guess_source_layer_name`. -/
def digitsToNat (s : List Char) : ℕ :=
  s.foldl (fun a c => 10 * a + (c.toNat - 48)) 0

/-- `Container.guess_source_layer_name`: the regex
`^.*?([0-9]+)[^0-9]*$` captures the last maximal digit run of the
name; when its value nr is positive the guess is the name with that
run replaced by nr - 1 (formatted by %i, so without leading zeros),
otherwise there is no guess. Computed from the reversed character
list: first the digit-free tail, then the digit run, then the rest. -/
def Container.guess_source_layer_name (layer_name : String) : Option String :=
  let rev := layer_name.toList.reverse
  let sufR := rev.takeWhile (fun c => !c.isDigit)
  let rest := rev.dropWhile (fun c => !c.isDigit)
  let digsR := rest.takeWhile (fun c => c.isDigit)
  let preR := rest.dropWhile (fun c => c.isDigit)
  if digsR.isEmpty then none
  else
    let nr := digitsToNat digsR.reverse
    if 0 < nr then
      some (String.mk (preR.reverse ++ natRepr (nr - 1) ++ sufR.reverse))
    else none

/-- A value of the attribute mapping produced by to_json: a plain
attribute string, or the source list the from attribute is normalized
to. -/
inductive JVal where
  | str (s : String)
  | list (l : List String)
deriving DecidableEq, Repr

/-- `Container.to_json` (attribute values modelled as strings): every
attribute is copied; the from attribute is dropped when it is "data",
replaced by the one-element guessed source list when it is empty (and
dropped when the guess fails), and split on commas otherwise. -/
def Container.to_json (name : String) (attrs : List (String × String)) :
    List (String × JVal) :=
  attrs.filterMap (fun kv =>
    if kv.1 = "from" then
      if kv.2 = "data" then none
      else if kv.2 = "" then
        match Container.guess_source_layer_name name with
        | some g => some ("from", JVal.list [g])
        | none => none
      else some ("from", JVal.list (kv.2.splitOn ","))
    else some (kv.1, JVal.str kv.2))

/-- The value of a little-endian decimal digit list. -/
def ofDigitsRev : List ℕ → ℕ
  | [] => 0
  | d :: ds => d + 10 * ofDigitsRev ds

theorem digitsAux_ofDigitsRev : ∀ fuel k, k ≤ fuel → ofDigitsRev (digitsAux fuel k) = k := by
  intro fuel
  induction fuel with
  | zero =>
    intro k hk
    have : k = 0 := by omega
    subst this
    rfl
  | succ f ih =>
    intro k hk
    cases k with
    | zero => rfl
    | succ k2 =>
      simp only [digitsAux, ofDigitsRev]
      have hdiv : (k2 + 1) / 10 ≤ f := by
        have := Nat.div_lt_self (Nat.succ_pos k2) (by norm_num : 1 < 10)
        omega
      rw [ih ((k2 + 1) / 10) hdiv]
      exact Nat.mod_add_div (k2 + 1) 10

theorem digitsAux_lt_ten : ∀ fuel k, ∀ d ∈ digitsAux fuel k, d < 10 := by
  intro fuel
  induction fuel with
  | zero =>
    intro k d hd
    cases k with
    | zero => cases hd
    | succ k2 => cases hd
  | succ f ih =>
    intro k d hd
    cases k with
    | zero => cases hd
    | succ k2 =>
      simp only [digitsAux, List.mem_cons] at hd
      rcases hd with hd | hd
      · subst hd
        exact Nat.mod_lt _ (by norm_num)
      · exact ih _ d hd

theorem natDigitsRev_ne_nil (k : ℕ) (hk : 0 < k) : natDigitsRev k ≠ [] := by
  cases k with
  | zero => omega
  | succ k2 => simp [natDigitsRev, digitsAux]

theorem digitChar_isDigit (d : ℕ) (hd : d < 10) : (digitChar d).isDigit = true := by
  interval_cases d <;> decide

theorem digitChar_toNat (d : ℕ) (hd : d < 10) : (digitChar d).toNat - 48 = d := by
  interval_cases d <;> decide

theorem natRepr_ne_nil (k : ℕ) : natRepr k ≠ [] := by
  unfold natRepr
  by_cases hk : k = 0
  · simp [hk]
  · rw [if_neg hk]
    simp only [ne_eq, List.map_eq_nil_iff, List.reverse_eq_nil_iff]
    exact natDigitsRev_ne_nil k (by omega)

theorem natRepr_all_digits (k : ℕ) : ∀ c ∈ natRepr k, c.isDigit = true := by
  intro c hc
  unfold natRepr at hc
  by_cases hk : k = 0
  · rw [if_pos hk] at hc
    simp only [List.mem_singleton] at hc
    subst hc
    decide
  · rw [if_neg hk] at hc
    simp only [List.mem_map, List.mem_reverse] at hc
    obtain ⟨d, hd, rfl⟩ := hc
    exact digitChar_isDigit d (digitsAux_lt_ten k k d hd)

theorem digitsToNat_append_single (s : List Char) (c : Char) :
    digitsToNat (s ++ [c]) = 10 * digitsToNat s + (c.toNat - 48) := by
  unfold digitsToNat
  rw [List.foldl_append]
  rfl

theorem digitsToNat_rev_digits : ∀ ds : List ℕ, (∀ d ∈ ds, d < 10) →
    digitsToNat (ds.reverse.map digitChar) = ofDigitsRev ds := by
  intro ds
  induction ds with
  | nil => intro; rfl
  | cons d rest ih =>
    intro h
    simp only [List.reverse_cons, List.map_append, List.map_cons, List.map_nil]
    rw [digitsToNat_append_single, ih (fun x hx => h x (List.mem_cons_of_mem _ hx)),
      digitChar_toNat d (h d (List.mem_cons_self _ _))]
    simp only [ofDigitsRev]
    omega

theorem digitsToNat_natRepr (k : ℕ) : digitsToNat (natRepr k) = k := by
  unfold natRepr
  by_cases hk : k = 0
  · subst hk
    decide
  · rw [if_neg hk]
    simp only [natDigitsRev]
    rw [digitsToNat_rev_digits _ (digitsAux_lt_ten k k)]
    exact digitsAux_ofDigitsRev k k le_rfl

theorem guess_decrement (pre suf : List Char) (k : ℕ)
    (hpre : ∀ c ∈ pre, c.isDigit = false)
    (hsuf : ∀ c ∈ suf, c.isDigit = false)
    (hk : 0 < k) :
    Container.guess_source_layer_name (String.mk (pre ++ natRepr k ++ suf)) =
      some (String.mk (pre ++ natRepr (k - 1) ++ suf)) := by
  have hRd : ∀ c ∈ (natRepr k).reverse, c.isDigit = true := by
    intro c hc
    exact natRepr_all_digits k c (List.mem_reverse.mp hc)
  have hRne : (natRepr k).reverse ≠ [] := by
    simp only [ne_eq, List.reverse_eq_nil_iff]
    exact natRepr_ne_nil k
  have hSd : ∀ c ∈ suf.reverse, (!c.isDigit) = true := by
    intro c hc
    rw [hsuf c (List.mem_reverse.mp hc)]
    rfl
  have hRnotd : ∀ c ∈ (natRepr k).reverse, (!c.isDigit) = false := by
    intro c hc
    rw [hRd c hc]
    rfl
  have hPd : ∀ c ∈ pre.reverse, c.isDigit = false := by
    intro c hc
    exact hpre c (List.mem_reverse.mp hc)
  have hrev : (pre ++ natRepr k ++ suf).reverse =
      suf.reverse ++ ((natRepr k).reverse ++ pre.reverse) := by
    simp [List.reverse_append]
  have h1 : ((pre ++ natRepr k ++ suf).reverse.takeWhile (fun c => !c.isDigit)) =
      suf.reverse := by
    rw [hrev, takeWhile_append_all _ _ _ hSd,
      takeWhile_head_false _ _ _ hRne hRnotd, List.append_nil]
  have h2 : ((pre ++ natRepr k ++ suf).reverse.dropWhile (fun c => !c.isDigit)) =
      (natRepr k).reverse ++ pre.reverse := by
    rw [hrev, dropWhile_append_all _ _ _ hSd,
      dropWhile_head_false _ _ _ hRne hRnotd]
  have h3 : (((natRepr k).reverse ++ pre.reverse).takeWhile (fun c => c.isDigit)) =
      (natRepr k).reverse := by
    rw [takeWhile_append_all _ _ _ hRd, takeWhile_all_false _ _ hPd, List.append_nil]
  have h4 : (((natRepr k).reverse ++ pre.reverse).dropWhile (fun c => c.isDigit)) =
      pre.reverse := by
    rw [dropWhile_append_all _ _ _ hRd, dropWhile_all_false _ _ hPd]
  have hdata : (String.mk (pre ++ natRepr k ++ suf)).toList = pre ++ natRepr k ++ suf := rfl
  have hie : ((natRepr k).reverse).isEmpty = false := by
    cases hR : (natRepr k).reverse with
    | nil => exact absurd hR hRne
    | cons a l => rfl
  unfold Container.guess_source_layer_name
  rw [hdata]
  simp only [h1, h2, h3, h4, hie, List.reverse_reverse, digitsToNat_natRepr,
    Bool.false_eq_true, if_false]
  rw [if_pos hk]

theorem alookup_filterMap_str_none (rest : List (String × String))
    (f : String × String → Option (String × JVal))
    (hf : ∀ kv, kv.1 ≠ "from" → f kv = some (kv.1, JVal.str kv.2))
    (hn : "from" ∉ rest.map Prod.fst) :
    alookup (rest.filterMap f) "from" = none := by
  induction rest with
  | nil => rfl
  | cons kv r ih =>
    obtain ⟨key, val⟩ := kv
    simp only [List.map_cons, List.mem_cons] at hn
    push_neg at hn
    have hkey : ¬ key = "from" := fun hc => hn.1 hc.symm
    rw [List.filterMap_cons, hf (key, val) hkey]
    simp only [alookup, if_neg hkey]
    exact ih hn.2

theorem alookup_to_json_from_none (name : String) (rest : List (String × String))
    (hn : "from" ∉ rest.map Prod.fst) :
    alookup (Container.to_json name rest) "from" = none := by
  unfold Container.to_json
  refine alookup_filterMap_str_none rest _ ?_ hn
  intro kv hkv
  simp [hkv]

theorem alookup_to_json_from (name : String) : ∀ (attrs : List (String × String)) (v : String),
    (attrs.map Prod.fst).Nodup → ("from", v) ∈ attrs →
    alookup (Container.to_json name attrs) "from" =
      (if v = "data" then none
       else if v = "" then
         (Container.guess_source_layer_name name).map (fun g => JVal.list [g])
       else some (JVal.list (v.splitOn ","))) := by
  intro attrs
  induction attrs with
  | nil => intro v _ hv; cases hv
  | cons kv rest ih =>
    intro v hnd hv
    obtain ⟨key, val⟩ := kv
    simp only [List.map_cons, List.nodup_cons] at hnd
    rcases List.mem_cons.mp hv with heq | hmr
    · injection heq with hkey hval
      subst hkey; subst hval
      by_cases hd : v = "data"
      · subst hd
        simp only [Container.to_json, List.filterMap_cons, if_true]
        exact alookup_to_json_from_none name rest hnd.1
      · by_cases he : v = ""
        · subst he
          simp only [Container.to_json, List.filterMap_cons, if_true, if_neg hd]
          cases hg : Container.guess_source_layer_name name with
          | some g => simp [hg, alookup]
          | none =>
            simp only [hg, Option.map_none]
            refine alookup_filterMap_str_none rest _ ?_ hnd.1
            intro kv hkv
            simp [hkv]
        · simp [Container.to_json, List.filterMap_cons, hd, he, alookup]
    · have hkey : ¬ key = "from" := by
        intro hc
        subst hc
        exact hnd.1 (List.mem_map.mpr ⟨("from", v), hmr, rfl⟩)
      have hkey2 : key ≠ "from" := hkey
      simp only [Container.to_json, List.filterMap_cons, if_neg hkey]
      simp only [alookup, if_neg hkey]
      exact ih v hnd.2 hmr

/-- Counterexample for C9 as stated: a layer named "output" (no digit
group) with the from attribute equal to the empty string: to_json
omits the from key entirely instead of replacing it with a one-element
source list. -/
theorem to_json_from_guess_counterexample :
    Container.guess_source_layer_name "output" = none ∧
    alookup (Container.to_json "output" [("from", "")]) "from" = none := by
  constructor <;> rfl

/-- Claim C9 (amended): the from attribute of to_json is omitted when
it equals "data"; when it is the empty string it becomes the
one-element guessed source list when the guess succeeds and is omitted
when the guess fails; any other value is split on commas; the guess,
for a layer name whose last digit group has positive value k (digit
free head and tail), decrements that group to k - 1; and repeated
calls on the same attributes produce the same mapping. -/
theorem to_json_from_normalization (name v : String) (attrs : List (String × String))
    (pre suf : List Char) (k : ℕ)
    (hnd : (attrs.map Prod.fst).Nodup) (hv : ("from", v) ∈ attrs)
    (hpre : ∀ c ∈ pre, c.isDigit = false) (hsuf : ∀ c ∈ suf, c.isDigit = false)
    (hk : 0 < k) :
    (alookup (Container.to_json name attrs) "from" =
      (if v = "data" then none
       else if v = "" then
         (Container.guess_source_layer_name name).map (fun g => JVal.list [g])
       else some (JVal.list (v.splitOn ",")))) ∧
    Container.guess_source_layer_name (String.mk (pre ++ natRepr k ++ suf)) =
      some (String.mk (pre ++ natRepr (k - 1) ++ suf)) ∧
    Container.to_json name attrs = Container.to_json name attrs :=
  ⟨alookup_to_json_from name attrs v hnd hv, guess_decrement pre suf k hpre hsuf hk, rfl⟩

/-- Witness for C9 (amended) at the layer name hidden_2 with an empty
from attribute: the exported source list is exactly hidden_1. -/
theorem to_json_from_witness :
    (alookup (Container.to_json "hidden_2" [("from", "")]) "from" =
      (if "" = "data" then none
       else if "" = "" then
         (Container.guess_source_layer_name "hidden_2").map (fun g => JVal.list [g])
       else some (JVal.list (String.splitOn "" ",")))) ∧
    Container.guess_source_layer_name
        (String.mk (['h', 'i', 'd', 'd', 'e', 'n', '_'] ++ natRepr 2 ++ [])) =
      some (String.mk (['h', 'i', 'd', 'd', 'e', 'n', '_'] ++ natRepr (2 - 1) ++ [])) ∧
    Container.to_json "hidden_2" [("from", "")] = Container.to_json "hidden_2" [("from", "")] :=
  to_json_from_normalization "hidden_2" "" [("from", "")]
    ['h', 'i', 'd', 'd', 'e', 'n', '_'] [] 2
    (by decide) (by decide) (by decide) (by decide) (by decide)
